import Mathlib

/-!
Verification development for the slircd-ng end-to-end test client
(`tests/e2e/irc_client.py`): the wire-message parser, the
receive/expect expectation engine, the capability-negotiation helpers
and the multi-client manager.

Modelling conventions:
the Python strings handled by the client are modelled as `List Char`;
wall-clock time is modelled by discrete `Nat` instants; Python code that
can raise returns `Except PyErr`; the incoming TCP stream of one
connection is modelled as a list of timestamped, already line-split
units together with an end-of-stream mode (EOF versus silence).
-/

namespace Irc

/-- Exceptions raised by the modelled code paths of `irc_client.py`:
`ConnectionError(msg)`, `asyncio.TimeoutError`/`TimeoutError`, and
`ValueError` (raised by tuple unpacking of `str.split`). -/
inductive PyErr where
  | connectionError (msg : List Char)
  | timeoutError
  | valueError
deriving DecidableEq, Repr

instance {ε α : Type} [DecidableEq ε] [DecidableEq α] : DecidableEq (Except ε α) := fun a b =>
  match a, b with
  | .error e, .error e' =>
    if h : e = e' then .isTrue (by rw [h])
    else .isFalse (fun hh => h (by injection hh))
  | .error _, .ok _ => .isFalse (fun hh => Except.noConfusion hh)
  | .ok _, .error _ => .isFalse (fun hh => Except.noConfusion hh)
  | .ok x, .ok y =>
    if h : x = y then .isTrue (by rw [h])
    else .isFalse (fun hh => h (by injection hh))

/-- A parsed tag value: either a string value (`tags[k] = v`) or the
boolean presence flag `True` (`tags[tag] = True`). -/
inductive TagVal where
  | str (v : List Char)
  | flag
deriving DecidableEq, Repr

/-- Python `dict` assignment `d[k] = v` on an association list: an
existing key keeps its position and gets the new value, a new key is
appended. -/
def dictSet {V : Type} : List (List Char × V) → List Char → V → List (List Char × V)
  | [], k, v => [(k, v)]
  | (k', v') :: rest, k, v =>
    if k' = k then (k, v) :: rest else (k', v') :: dictSet rest k v

/-- Python `dict` lookup `d[k]` (as an `Option`). -/
def dictGet? {V : Type} : List (List Char × V) → List Char → Option V
  | [], _ => none
  | (k', v') :: rest, k => if k' = k then some v' else dictGet? rest k

/-- Whitespace characters recognised by Python `str.split()`. -/
def isPySpace (c : Char) : Bool :=
  c = ' ' || c = '\t' || c = '\n' || c = '\r' || c = '\x0b' || c = '\x0c'

/-- Python `line.rstrip("\r\n")`: remove every trailing `'\r'`/`'\n'`. -/
def rstripCRLF : List Char → List Char
  | [] => []
  | c :: rest =>
    let r := rstripCRLF rest
    if r = [] ∧ (c = '\r' ∨ c = '\n') then [] else c :: r

/-- Python `s.split(sep, 1)` for a single-character separator, returning
`none` when the separator does not occur (the Python call then returns a
one-element list, and unpacking it into two variables raises
`ValueError`). -/
def splitOnceChar : List Char → Char → Option (List Char × List Char)
  | [], _ => none
  | c :: rest, sep =>
    if c = sep then some ([], rest)
    else
      match splitOnceChar rest sep with
      | some (a, b) => some (c :: a, b)
      | none => none

/-- Python `s.split(sep)` for a single-character separator, keeping
empty pieces (`"".split(";") = [""]`). -/
def pySplitCharAll : List Char → Char → List (List Char)
  | [], _ => [[]]
  | c :: rest, sep =>
    let r := pySplitCharAll rest sep
    if c = sep then [] :: r else (c :: r.headD []) :: r.tailD []

/-- Python `s.split()` (no argument): split on runs of whitespace and
drop empty pieces. -/
def pySplitWS : List Char → List (List Char)
  | [] => []
  | c :: rest =>
    if isPySpace c then pySplitWS rest
    else
      match pySplitWS rest with
      | [] => [[c]]
      | w :: ws => if isPySpace (rest.headD ' ') then [c] :: w :: ws else (c :: w) :: ws

/-- Python `line.split(" :", 1)` restricted to the two-character needle
used by the source, returning `none` when `" :"` does not occur (the
source guards the split with `if " :" in line`). -/
def splitSpaceColon : List Char → Option (List Char × List Char)
  | [] => none
  | [_] => none
  | c :: d :: rest =>
    if c = ' ' ∧ d = ':' then some ([], rest)
    else
      match splitSpaceColon (d :: rest) with
      | some (front, tr) => some (c :: front, tr)
      | none => none

/-- Python `s.replace(pat, rep)` restricted to the two-character
needles the source uses (`"\\:"`, `"\\s"`, `"\\\\"`): left-to-right,
non-overlapping replacement. -/
def pyReplace2 (a b : Char) (rep : List Char) : List Char → List Char
  | [] => []
  | [c] => [c]
  | c :: d :: rest =>
    if c = a ∧ d = b then rep ++ pyReplace2 a b rep rest
    else c :: pyReplace2 a b rep (d :: rest)

/-- The backslash character. -/
def bsC : Char := '\\'

/-- Tag-value unescaping from `IrcMessage.parse`:
`v.replace("\\:", ";").replace("\\s", " ").replace("\\\\", "\\")` —
three sequential full-string replacements, in this order. -/
def unescapeTagValue (v : List Char) : List Char :=
  pyReplace2 bsC bsC [bsC] (pyReplace2 bsC 's' [' '] (pyReplace2 bsC ':' [';'] v))

/-- A parsed IRC message (`IrcMessage`).  The source field named `prefix` is
named `pfx` here. -/
structure IrcMessage where
  raw : List Char
  tags : List (List Char × TagVal)
  pfx : Option (List Char)
  command : List Char
  params : List (List Char)
deriving DecidableEq, Repr

/-- One iteration of the tag-collection loop: for each piece of the
`;`-split tag block, split at the first `=` (key/value with the value
unescaped) or store the boolean flag `True`. -/
def parseOneTag (tags : List (List Char × TagVal)) (tag : List Char) :
    List (List Char × TagVal) :=
  match splitOnceChar tag '=' with
  | some (k, v) => dictSet tags k (.str (unescapeTagValue v))
  | none => dictSet tags tag .flag

/-- The tag step of `IrcMessage.parse`: on a line starting with `@`,
`tag_part, line = line[1:].split(" ", 1)` (raising `ValueError` when
there is no space), then the tag-collection loop. -/
def tagsStep (l : List Char) : Except PyErr (List (List Char × TagVal) × List Char) :=
  match l with
  | '@' :: restAll =>
    match splitOnceChar restAll ' ' with
    | none => .error .valueError
    | some (tagPart, rest) => .ok ((pySplitCharAll tagPart ';').foldl parseOneTag [], rest)
  | _ => .ok ([], l)

/-- The sender step of `IrcMessage.parse`: on a line starting with `:`,
`prefix, line = line[1:].split(" ", 1)` (raising `ValueError` when
there is no space). -/
def pfxStep (l : List Char) : Except PyErr (Option (List Char) × List Char) :=
  match l with
  | ':' :: restAll =>
    match splitOnceChar restAll ' ' with
    | none => .error .valueError
    | some (p, rest) => .ok (some p, rest)
  | _ => .ok (none, l)

/-- The command/parameter step of `IrcMessage.parse`: when the line
contains `" :"`, the front is whitespace-split into command plus leading
parameters and everything after the marker is one trailing parameter;
otherwise the whole line is whitespace-split.  A missing first token
yields the empty command. -/
def splitCmd (l : List Char) : List Char × List (List Char) :=
  match splitSpaceColon l with
  | some (front, trailing) =>
    let parts := pySplitWS front
    (parts.headD [], parts.tail ++ [trailing])
  | none =>
    let parts := pySplitWS l
    (parts.headD [], parts.tail)

/-- The parser `IrcMessage.parse`: `raw` is bound to the argument before the local
`line` is rebound to its `rstrip("\r\n")`, then the tag, sender and
command steps run in order and the command is upper-cased. -/
def IrcMessage.parse (line : List Char) : Except PyErr IrcMessage :=
  match tagsStep (rstripCRLF line) with
  | .error e => .error e
  | .ok (tags, l1) =>
    match pfxStep l1 with
    | .error e => .error e
    | .ok (p, l2) =>
      let cp := splitCmd l2
      .ok ⟨line, tags, p, cp.1.map Char.toUpper, cp.2⟩

/-- The state of one `IrcClient`.  `stream` is the not-yet-read part of
the inbound TCP stream at line granularity, each unit carrying its
arrival instant and its parsed form (parsing itself is modelled and
verified separately); `atEof` tells whether the stream ends in EOF
(readline returns an empty line) or in silence (readline blocks until
its timeout) once `stream` is exhausted; `now` is the current instant;
`hasSock` models `_reader`/`_writer` being set (they are set together by
`connect` and never reset); `connected` is `_connected`; `sent` collects
the wire lines written by `send`; `capsAvailable`/`capsEnabled` model
the `_caps_available`/`_caps_enabled` sets; `timeoutDefault` is the
constructor attribute `timeout` used when a call passes no timeout (or
a falsy one). -/
structure ClientState where
  stream : List (Nat × IrcMessage)
  atEof : Bool
  now : Nat
  hasSock : Bool
  connected : Bool
  sent : List (List Char)
  capsAvailable : List (List Char)
  capsEnabled : List (List Char)
  timeoutDefault : Nat
deriving DecidableEq, Repr

/-- Python set `s.add(x)` on a list model: keep the element if already
present, otherwise append it. -/
def setAdd (l : List (List Char)) (x : List Char) : List (List Char) :=
  if x ∈ l then l else l ++ [x]

/-- Python `timeout = timeout or self.timeout`: `None` and `0` are falsy
and fall back to the default timeout of the client. -/
def resolveTimeout (t? : Option Nat) (s : ClientState) : Nat :=
  match t? with
  | none => s.timeoutDefault
  | some t => if t = 0 then s.timeoutDefault else t

/-- Does the line already end in the wire terminator `"\r\n"`? -/
def endsCRLF (l : List Char) : Bool :=
  match l.reverse with
  | '\n' :: '\r' :: _ => true
  | _ => false

/-- Writing appends `"\r\n"` when absent (`send`). -/
def appendCRLF (l : List Char) : List Char :=
  if endsCRLF l then l else l ++ ['\r', '\n']

/-- The method `IrcClient.send`: raises `ConnectionError("Not connected")` when the
writer is not set, otherwise writes the terminated line. -/
def send (command : List Char) (s : ClientState) : Except PyErr Unit × ClientState :=
  if s.hasSock = false then (.error (.connectionError "Not connected".toList), s)
  else (.ok (), { s with sent := s.sent ++ [appendCRLF command] })

/-- The body of `IrcClient.recv` after timeout resolution: wait at most
`timeout` for the next line.  A pending unit arriving by
`now + timeout` is returned (advancing `now` to its arrival instant and
auto-answering `PING` with `PONG`); otherwise the read times out
(`now` advances by the full timeout).  At end of stream, EOF returns
`none` immediately — each such read is charged one time unit, since a
real read takes nonzero wall-clock time — and clears `connected`;
silence behaves like a timeout. -/
def recvCore (timeout : Nat) (s : ClientState) : Except PyErr (Option IrcMessage) × ClientState :=
  if s.hasSock = false then (.error (.connectionError "Not connected".toList), s)
  else
    match s.stream with
    | (ta, m) :: rest =>
      if ta ≤ s.now + timeout then
        let s1 : ClientState := { s with stream := rest, now := max s.now ta }
        if m.command = "PING".toList then
          (.ok (some m), { s1 with sent := s1.sent ++ [appendCRLF ("PONG :".toList ++ m.params.headD [])] })
        else (.ok (some m), s1)
      else (.ok none, { s with now := s.now + timeout })
    | [] =>
      if s.atEof then (.ok none, { s with connected := false, now := s.now + 1 })
      else (.ok none, { s with now := s.now + timeout })

/-- The method `IrcClient.recv`: check `_reader`, resolve the timeout with
`timeout = timeout or self.timeout`, then read. -/
def recv (t? : Option Nat) (s : ClientState) : Except PyErr (Option IrcMessage) × ClientState :=
  if s.hasSock = false then (.error (.connectionError "Not connected".toList), s)
  else recvCore (resolveTimeout t? s) s

/-- The field axis `expect` matches on (`field` argument, default
`'command'`); `sender` is the source string `'prefix'`, where Python
`str(None)` renders an absent sender as `"None"`. -/
inductive FieldSel where
  | command
  | raw
  | sender
deriving DecidableEq, Repr

/-- Field access `getattr(msg, field, msg.raw)` followed by `str(...)`. -/
def fieldValue : FieldSel → IrcMessage → List Char
  | .command, m => m.command
  | .raw, m => m.raw
  | .sender, m => m.pfx.getD "None".toList

/-- The `while time.time() < deadline` loop of `IrcClient.expect`,
unrolled on fuel.  Each iteration reads with the time remaining to the
single absolute deadline, skips a read that returned `none`, discards a
message failing the predicate, and returns the first match; once the
deadline is reached it raises `TimeoutError`.  The fuel strictly
exceeds the greatest possible number of iterations (each iteration
either consumes one stream unit or advances `now`), so the fuel-0 arm is
never reached from `expect`. -/
def expectFuel (pred : IrcMessage → Bool) (deadline : Nat) :
    Nat → ClientState → Except PyErr IrcMessage × ClientState
  | 0, s => (.error .timeoutError, s)
  | n + 1, s =>
    if s.now < deadline then
      match recvCore (deadline - s.now) s with
      | (.error e, s') => (.error e, s')
      | (.ok none, s') => expectFuel pred deadline n s'
      | (.ok (some m), s') =>
        if pred m then (.ok m, s') else expectFuel pred deadline n s'
  else (.error .timeoutError, s)

/-- The method `IrcClient.expect`: resolve the timeout, compute the one absolute
deadline `time.time() + timeout`, and run the wait loop.  The predicate
is the pattern of the caller applied to the chosen field. -/
def expect (P : List Char → Bool) (fld : FieldSel) (t? : Option Nat) (s : ClientState) :
    Except PyErr IrcMessage × ClientState :=
  let T := resolveTimeout t? s
  expectFuel (fun m => P (fieldValue fld m)) (s.now + T) (s.stream.length + T + 1) s

/-- The `while` loop of `IrcClient.recv_all`, unrolled on fuel: read
with the remaining time, stop at the first `none`, collect everything
else, and stop when the deadline passes.  As for `expectFuel`, the fuel
used by `recv_all` makes the fuel-0 arm unreachable. -/
def recvAllFuel (deadline : Nat) :
    Nat → ClientState → Except PyErr (List IrcMessage) × ClientState
  | 0, s => (.ok [], s)
  | n + 1, s =>
    if s.now < deadline then
      match recvCore (deadline - s.now) s with
      | (.error e, s') => (.error e, s')
      | (.ok none, s') => (.ok [], s')
      | (.ok (some m), s') =>
        match recvAllFuel deadline n s' with
        | (.error e, s'') => (.error e, s'')
        | (.ok msgs, s'') => (.ok (m :: msgs), s'')
    else (.ok [], s)

/-- The method `IrcClient.recv_all`: one absolute deadline `time.time() + timeout`,
then the drain loop. -/
def recv_all (window : Nat) (s : ClientState) : Except PyErr (List IrcMessage) × ClientState :=
  recvAllFuel (s.now + window) (s.stream.length + window + 1) s

/-- Substring test used to model `re.search` for a plain-text pattern:
is `pat` a contiguous part of `l`? -/
def seqIsPrefix : List Char → List Char → Bool
  | [], _ => true
  | _ :: _, [] => false
  | p :: ps, c :: cs => p = c && seqIsPrefix ps cs

/-- Substring occurrence test (`pat in l` at any position). -/
def containsSeq (pat : List Char) : List Char → Bool
  | [] => seqIsPrefix pat []
  | c :: rest => seqIsPrefix pat (c :: rest) || containsSeq pat rest

/-- The compiled pattern `re.compile("CAP", re.IGNORECASE)` applied with
`.search` to a field string: a case-insensitive substring test. -/
def capPat (v : List Char) : Bool :=
  containsSeq "CAP".toList (v.map Char.toUpper)

/-- Python `" ".join(l)`. -/
def joinSpace : List (List Char) → List Char
  | [] => []
  | [w] => w
  | w :: x :: rest => w ++ ' ' :: joinSpace (x :: rest)

/-- One capability token of a `CAP ... LS` reply: `cap.split("=", 1)[0]`
when it carries a value, the token itself otherwise. -/
def addCapName (caps : List (List Char)) (cap : List Char) : List (List Char) :=
  match splitOnceChar cap '=' with
  | some (name, _) => setAdd caps name
  | none => setAdd caps cap

/-- The `while True` loop of `IrcClient.cap_ls`: await a message
matching `"CAP"`, and on a reply with at least three parameters whose
second parameter is `"LS"` collect the whitespace-split capability
tokens of the last parameter; the loop then breaks whenever the second
parameter differs from `"*"` (the source tests `msg.params[1]`, which
the guard just forced to `"LS"`), storing the collected set in
`_caps_available`.  An `expect` failure propagates.  Each `expect`
success consumes at least one stream unit, so the fuel used by `cap_ls`
makes the fuel-0 arm unreachable. -/
def capLsFuel : Nat → List (List Char) → ClientState →
    Except PyErr (List (List Char)) × ClientState
  | 0, _, s => (.error .timeoutError, s)
  | n + 1, caps, s =>
    match expect capPat .command (some 5) s with
    | (.error e, s') => (.error e, s')
    | (.ok m, s') =>
      if 3 ≤ m.params.length ∧ m.params.getD 1 [] = "LS".toList then
        let caps' := (pySplitWS ((m.params.getLast?).getD [])).foldl addCapName caps
        if m.params.getD 1 [] ≠ "*".toList then
          (.ok caps', { s' with capsAvailable := caps' })
        else capLsFuel n caps' s'
      else capLsFuel n caps s'

/-- The method `IrcClient.cap_ls` (with the default `version = 302`): send
`CAP LS 302`, then run the collection loop. -/
def cap_ls (s : ClientState) : Except PyErr (List (List Char)) × ClientState :=
  match send "CAP LS 302".toList s with
  | (.error e, s1) => (.error e, s1)
  | (.ok _, s1) => capLsFuel (s1.stream.length + 1) [] s1

/-- The method `IrcClient.cap_req`: send `CAP REQ :<caps>`, await one message
matching `"CAP"` (five-second timeout, so a timeout raises out of the
call), and on a reply whose second parameter is `"ACK"` record every
requested capability in `_caps_enabled` and return `True`; any other
reply returns `False`. -/
def cap_req (capabilities : List (List Char)) (s : ClientState) :
    Except PyErr Bool × ClientState :=
  match send ("CAP REQ :".toList ++ joinSpace capabilities) s with
  | (.error e, s1) => (.error e, s1)
  | (.ok _, s1) =>
    match expect capPat .command (some 5) s1 with
    | (.error e, s2) => (.error e, s2)
    | (.ok m, s2) =>
      if 2 ≤ m.params.length ∧ m.params.getD 1 [] = "ACK".toList then
        (.ok true, { s2 with capsEnabled := capabilities.foldl setAdd s2.capsEnabled })
      else (.ok false, s2)

/-- The effect of `MultiClientManager.add_client` on the name-to-client map:
the plain dict assignment `self.clients[name] = client` (clients are
identified here by abstract handles; construction, connection and
registration of the new client do not touch the map). -/
def add_client (clients : List (List Char × Nat)) (name : List Char) (client : Nat) :
    List (List Char × Nat) :=
  dictSet clients name client

/-- Reading without a reader raises `ConnectionError` and changes
nothing. -/
theorem recvCore_noSock (t : Nat) (s : ClientState) (hs : s.hasSock = false) :
    recvCore t s = (.error (.connectionError "Not connected".toList), s) := by
  simp [recvCore, hs]

/-- Reading on an open connection whose next unit arrives within the
timeout returns that unit, pops it and advances `now` to its arrival
instant; only the log of sent lines (the `PONG` auto-reply) can
otherwise change. -/
theorem recvCore_deliver (t : Nat) (s : ClientState) (ta : Nat) (m : IrcMessage)
    (rest : List (Nat × IrcMessage)) (hs : s.hasSock = true)
    (hst : s.stream = (ta, m) :: rest) (hta : ta ≤ s.now + t) :
    ∃ sent', recvCore t s =
      (.ok (some m), { s with stream := rest, now := max s.now ta, sent := sent' }) := by
  simp only [recvCore, hs, hst]
  norm_num [hta]
  split
  · exact ⟨_, rfl⟩
  · exact ⟨_, rfl⟩

/-- Reading on an open connection whose next unit arrives after the
timeout returns `none` and only advances `now` by the timeout. -/
theorem recvCore_late (t : Nat) (s : ClientState) (ta : Nat) (m : IrcMessage)
    (rest : List (Nat × IrcMessage)) (hs : s.hasSock = true)
    (hst : s.stream = (ta, m) :: rest) (hta : ¬ ta ≤ s.now + t) :
    recvCore t s = (.ok none, { s with now := s.now + t }) := by
  simp [recvCore, hs, hst, hta]

/-- Reading at end of stream with EOF returns `none` and clears
`connected`. -/
theorem recvCore_eof (t : Nat) (s : ClientState) (hs : s.hasSock = true)
    (hst : s.stream = []) (he : s.atEof = true) :
    recvCore t s = (.ok none, { s with connected := false, now := s.now + 1 }) := by
  simp [recvCore, hs, hst, he]

/-- Reading at end of stream without EOF behaves like a timeout. -/
theorem recvCore_quiet (t : Nat) (s : ClientState) (hs : s.hasSock = true)
    (hst : s.stream = []) (he : s.atEof = false) :
    recvCore t s = (.ok none, { s with now := s.now + t }) := by
  simp [recvCore, hs, hst, he]

/-- When nothing in the stream satisfies the predicate, the `expect`
loop ends in `TimeoutError` with control returned no later than the
deadline, for any sufficient fuel. -/
theorem expectFuel_timeout (pred : IrcMessage → Bool) (deadline : Nat) :
    ∀ n s, s.hasSock = true → s.stream.length + (deadline - s.now) < n →
      (∀ p ∈ s.stream, pred p.2 = false) → s.now ≤ deadline →
      (expectFuel pred deadline n s).1 = .error .timeoutError ∧
      (expectFuel pred deadline n s).2.now ≤ deadline := by
  intro n
  induction n with
  | zero => intro s _ hn _ _; omega
  | succ n ih =>
    intro s hs hn hp hle
    by_cases hlt : s.now < deadline
    · simp only [expectFuel]
      rw [if_pos hlt]
      rcases hst : s.stream with _ | ⟨⟨ta, m⟩, rest⟩
      · rcases heof : s.atEof with _ | _
        · rw [recvCore_quiet _ _ hs hst heof]
          exact ih { s with now := s.now + (deadline - s.now) } hs
            (by simp only [hst] at hn ⊢; simp; omega)
            (by simp only [hst]; simp) (by simp; omega)
        · rw [recvCore_eof _ _ hs hst heof]
          exact ih { s with connected := false, now := s.now + 1 } hs
            (by simp only [hst] at hn ⊢; simp; omega)
            (by simp only [hst]; simp) (by simp; omega)
      · have hm : pred m = false := hp (ta, m) (by rw [hst]; exact List.mem_cons_self _ _)
        have hrest : ∀ p ∈ rest, pred p.2 = false := fun p hpmem =>
          hp p (by rw [hst]; exact List.mem_cons_of_mem _ hpmem)
        by_cases hta : ta ≤ s.now + (deadline - s.now)
        · obtain ⟨sent', hrec⟩ := recvCore_deliver (deadline - s.now) s ta m rest hs hst hta
          rw [hrec]
          simp only [hm, Bool.false_eq_true, if_false]
          exact ih { s with stream := rest, now := max s.now ta, sent := sent' } hs
            (by simp only [hst] at hn; simp at hn ⊢; omega)
            (by simpa using hrest) (by simp; omega)
        · rw [recvCore_late _ _ _ _ _ hs hst hta]
          exact ih { s with now := s.now + (deadline - s.now) } hs
            (by simp only [hst] at hn ⊢; simp at hn ⊢; omega)
            (by simp only [hst] at hp ⊢; simpa using hp) (by simp; omega)
    · simp [expectFuel, hlt]
      omega

/-- The `expect` loop skips and discards every leading non-matching
unit that arrives before the deadline, returning the first matching
unit and leaving exactly the suffix after it in the stream; the
connection flags, capability sets and default timeout are untouched and
control returns no later than the deadline. -/
theorem expectFuel_first (pred : IrcMessage → Bool) (deadline tm : Nat)
    (m : IrcMessage) (post : List (Nat × IrcMessage)) :
    ∀ pre n s, s.hasSock = true → s.stream.length + (deadline - s.now) < n →
      s.stream = pre ++ (tm, m) :: post →
      (∀ p ∈ pre, p.1 < deadline ∧ pred p.2 = false) →
      tm ≤ deadline → pred m = true → s.now < deadline →
      ∃ s', expectFuel pred deadline n s = (.ok m, s') ∧ s'.stream = post ∧
        s'.hasSock = s.hasSock ∧ s'.connected = s.connected ∧ s'.atEof = s.atEof ∧
        s'.capsAvailable = s.capsAvailable ∧ s'.capsEnabled = s.capsEnabled ∧
        s'.timeoutDefault = s.timeoutDefault ∧ s'.now ≤ deadline := by
  intro pre
  induction pre with
  | nil =>
    intro n s hs hn hst _ htm hpm hlt
    match n with
    | 0 => rw [hst] at hn; simp at hn
    | n + 1 =>
      have hta : tm ≤ s.now + (deadline - s.now) := by omega
      obtain ⟨sent', hrec⟩ := recvCore_deliver (deadline - s.now) s tm m post hs
        (by simpa using hst) hta
      refine ⟨{ s with stream := post, now := max s.now tm, sent := sent' }, ?_, ?_⟩
      · simp only [expectFuel]
        rw [if_pos hlt, hrec]
        simp [hpm]
      · simp
        omega
  | cons hd tl ih =>
    intro n s hs hn hst hpre htm hpm hlt
    match n with
    | 0 => rw [hst] at hn; simp at hn
    | n + 1 =>
      obtain ⟨t0, m0⟩ := hd
      have h0 := hpre (t0, m0) (List.mem_cons_self _ _)
      have htl : ∀ p ∈ tl, p.1 < deadline ∧ pred p.2 = false := fun p hpmem =>
        hpre p (List.mem_cons_of_mem _ hpmem)
      have hta : t0 ≤ s.now + (deadline - s.now) := by omega
      obtain ⟨sent', hrec⟩ := recvCore_deliver (deadline - s.now) s t0 m0
        (tl ++ (tm, m) :: post) hs (by simpa using hst) hta
      obtain ⟨s', hres, hstream', hsock', hconn', heof', hav', hen', htd', hnow'⟩ :=
        ih n { s with stream := tl ++ (tm, m) :: post, now := max s.now t0, sent := sent' }
          hs (by rw [hst] at hn; simp at hn ⊢; omega) (by simp)
          htl htm hpm (by simp; omega)
      refine ⟨s', ?_, hstream', by simpa using hsock', by simpa using hconn',
        by simpa using heof', by simpa using hav', by simpa using hen',
        by simpa using htd', hnow'⟩
      simp only [expectFuel]
      rw [if_pos hlt, hrec]
      simp only [h0.2, Bool.false_eq_true, if_false]
      exact hres

/-- Inversion for a successful read: the returned unit is the stream
head, it is popped, `now` advances to the maximum of itself and the
arrival instant, and all fields except the sent-lines log are
preserved. -/
theorem recvCore_some_inv (t : Nat) (s s' : ClientState) (m : IrcMessage)
    (h : recvCore t s = (.ok (some m), s')) :
    ∃ ta rest, s.stream = (ta, m) :: rest ∧ s'.stream = rest ∧
      s'.now = max s.now ta ∧ s'.atEof = s.atEof ∧ s'.hasSock = s.hasSock ∧
      s'.connected = s.connected := by
  by_cases hs : s.hasSock = true
  · rcases hst : s.stream with _ | ⟨⟨ta, m0⟩, rest⟩
    · rcases heof : s.atEof with _ | _
      · rw [recvCore_quiet _ _ hs hst heof] at h
        simp at h
      · rw [recvCore_eof _ _ hs hst heof] at h
        simp at h
    · by_cases hta : ta ≤ s.now + t
      · obtain ⟨sent', hrec⟩ := recvCore_deliver t s ta m0 rest hs hst hta
        rw [hrec] at h
        simp at h
        refine ⟨ta, rest, ?_, ?_⟩
        · rw [h.1]
        · rw [← h.2]
          simp
      · rw [recvCore_late _ _ _ _ _ hs hst hta] at h
        simp at h
  · rw [recvCore_noSock _ _ (by simpa using hs)] at h
    simp at h

/-- Whatever the `recv_all` loop returns is a prefix of the pending
stream taken in stream order: the drain never reorders and never
invents messages. -/
theorem recvAllFuel_isPrefix (deadline : Nat) :
    ∀ n s msgs s', recvAllFuel deadline n s = (.ok msgs, s') →
      msgs <+: s.stream.map Prod.snd := by
  intro n
  induction n with
  | zero =>
    intro s msgs s' h
    simp [recvAllFuel] at h
    simp [h.1]
  | succ n ih =>
    intro s msgs s' h
    simp only [recvAllFuel] at h
    by_cases hlt : s.now < deadline
    · rw [if_pos hlt] at h
      split at h
      · simp at h
      · simp at h
        simp [h.1]
      · rename_i m1 s1 heq
        split at h
        · simp at h
        · rename_i msgs1 s1' heq2
          simp at h
          obtain ⟨ta, rest, hstream, hstream1, _, _, _, _⟩ :=
            recvCore_some_inv _ _ _ _ heq
          obtain ⟨tail', htail'⟩ := ih _ _ _ heq2
          refine ⟨tail', ?_⟩
          rw [hstream, List.map_cons, ← h.1]
          rw [hstream1] at htail'
          simp [htail']
    · rw [if_neg hlt] at h
      simp at h
      simp [h.1]

/-- Modelled from the spec: the wire-format escaping of one tag-value
character (the repository contains only the unescaping direction; the
spec gives the mapping backslash-colon for `;`, backslash-s for the
space and doubled backslash for the backslash itself). -/
def escTagChar (c : Char) : List Char :=
  if c = ';' then [bsC, ':']
  else if c = ' ' then [bsC, 's']
  else if c = bsC then [bsC, bsC]
  else [c]

/-- Modelled from the spec: tag-value escaping, character by
character. -/
def escapeTagValue : List Char → List Char
  | [] => []
  | c :: rest => escTagChar c ++ escapeTagValue rest

/-- Proof-internal intermediate form: the escaping with the `;` token
already restored (the state of the value between the first and the
second replacement of the unescaper). -/
def escNoSemi : List Char → List Char
  | [] => []
  | c :: rest => (if c = ' ' then [bsC, 's'] else [c]) ++ escNoSemi rest

theorem pyReplace2_hit (a b : Char) (rep : List Char) (l : List Char) :
    pyReplace2 a b rep (a :: b :: l) = rep ++ pyReplace2 a b rep l := by
  simp [pyReplace2]

theorem pyReplace2_skip (a b : Char) (rep : List Char) (c : Char) (l : List Char)
    (hc : c ≠ a) : pyReplace2 a b rep (c :: l) = c :: pyReplace2 a b rep l := by
  cases l with
  | nil => simp [pyReplace2]
  | cons d rest => simp [pyReplace2, hc]

theorem pyReplace2_miss2 (a b : Char) (rep : List Char) (d : Char) (l : List Char)
    (hd : d ≠ b) : pyReplace2 a b rep (a :: d :: l) = a :: pyReplace2 a b rep (d :: l) := by
  simp [pyReplace2, hd]

/-- A replacement whose needle starts with a character absent from the
string is the identity. -/
theorem pyReplace2_noFirst (a b : Char) (rep : List Char) :
    ∀ l, a ∉ l → pyReplace2 a b rep l = l := by
  intro l
  induction l with
  | nil => intro _; rfl
  | cons c rest ih =>
    intro h
    have hc : c ≠ a := fun hcc => h (by rw [hcc]; exact List.mem_cons_self _ _)
    rw [pyReplace2_skip a b rep c rest hc, ih (fun hm => h (List.mem_cons_of_mem _ hm))]

/-- First unescaping pass on an escaped backslash-free value: the
backslash-colon tokens collapse back to `;` and everything else
survives. -/
theorem replace_colon_escape :
    ∀ v, bsC ∉ v → pyReplace2 bsC ':' [';'] (escapeTagValue v) = escNoSemi v := by
  intro v
  induction v with
  | nil => intro _; rfl
  | cons c rest ih =>
    intro h
    have hc : c ≠ bsC := fun hcc => h (by rw [hcc]; exact List.mem_cons_self _ _)
    have hrest := ih (fun hm => h (List.mem_cons_of_mem _ hm))
    by_cases hsemi : c = ';'
    · subst hsemi
      have h1 : escapeTagValue (';' :: rest) = bsC :: ':' :: escapeTagValue rest := by
        simp [escapeTagValue, escTagChar]
      rw [h1, pyReplace2_hit, hrest]
      simp [escNoSemi]
    · by_cases hsp : c = ' '
      · subst hsp
        have h1 : escapeTagValue (' ' :: rest) = bsC :: 's' :: escapeTagValue rest := by
          simp [escapeTagValue, escTagChar]
        rw [h1, pyReplace2_miss2 _ _ _ _ _ (by decide),
          pyReplace2_skip _ _ _ _ _ (by decide), hrest]
        simp [escNoSemi]
      · have h1 : escapeTagValue (c :: rest) = c :: escapeTagValue rest := by
          simp [escapeTagValue, escTagChar, hsemi, hsp, hc]
        rw [h1, pyReplace2_skip _ _ _ _ _ hc, hrest]
        simp [escNoSemi, hsp]

/-- Second unescaping pass: the backslash-s tokens collapse back to the
space and everything else survives. -/
theorem replace_s_escNoSemi :
    ∀ v, bsC ∉ v → pyReplace2 bsC 's' [' '] (escNoSemi v) = v := by
  intro v
  induction v with
  | nil => intro _; rfl
  | cons c rest ih =>
    intro h
    have hc : c ≠ bsC := fun hcc => h (by rw [hcc]; exact List.mem_cons_self _ _)
    have hrest := ih (fun hm => h (List.mem_cons_of_mem _ hm))
    by_cases hsp : c = ' '
    · subst hsp
      have h1 : escNoSemi (' ' :: rest) = bsC :: 's' :: escNoSemi rest := by
        simp [escNoSemi]
      rw [h1, pyReplace2_hit, hrest]
      rfl
    · have h1 : escNoSemi (c :: rest) = c :: escNoSemi rest := by
        simp [escNoSemi, hsp]
      rw [h1, pyReplace2_skip _ _ _ _ _ hc, hrest]

/-- On a backslash-free value the three sequential
replacements really invert the escaping given by the spec. -/
theorem unescape_escape (v : List Char) (hv : bsC ∉ v) :
    unescapeTagValue (escapeTagValue v) = v := by
  unfold unescapeTagValue
  rw [replace_colon_escape v hv, replace_s_escNoSemi v hv, pyReplace2_noFirst _ _ _ v hv]

/-- The escape emits no raw space (spaces become backslash-s). -/
theorem escape_no_space : ∀ v, ' ' ∉ escapeTagValue v := by
  intro v
  induction v with
  | nil => simp [escapeTagValue]
  | cons c rest ih =>
    simp only [escapeTagValue, List.mem_append]
    rintro (hin | hin)
    · unfold escTagChar at hin
      split_ifs at hin with h1 h2 h3
      · simp_all [bsC]
      · simp_all [bsC]
      · simp_all [bsC]
      · simp at hin
        exact h2 hin.symm
    · exact ih hin

/-- The escape emits no raw semicolon (semicolons become
backslash-colon). -/
theorem escape_no_semi : ∀ v, ';' ∉ escapeTagValue v := by
  intro v
  induction v with
  | nil => simp [escapeTagValue]
  | cons c rest ih =>
    simp only [escapeTagValue, List.mem_append]
    rintro (hin | hin)
    · unfold escTagChar at hin
      split_ifs at hin with h1 h2 h3
      · simp_all [bsC]
      · simp_all [bsC]
      · simp_all [bsC]
      · simp at hin
        exact h1 hin.symm
    · exact ih hin

/-- Stripping with `rstrip("\r\n")` leaves a line ending in any other character
alone. -/
theorem rstripCRLF_append (c : Char) (hc : ¬ (c = '\r' ∨ c = '\n')) :
    ∀ l, rstripCRLF (l ++ [c]) = l ++ [c] := by
  intro l
  induction l with
  | nil => simp [rstripCRLF, hc]
  | cons d rest ih =>
    show rstripCRLF (d :: (rest ++ [c])) = d :: (rest ++ [c])
    simp only [rstripCRLF, ih]
    simp

/-- Splitting with `split(sep, 1)` cuts at the first separator. -/
theorem splitOnceChar_append (sep : Char) :
    ∀ a b, sep ∉ a → splitOnceChar (a ++ sep :: b) sep = some (a, b) := by
  intro a
  induction a with
  | nil => intro b _; simp [splitOnceChar]
  | cons c a' ih =>
    intro b h
    have hc : c ≠ sep := fun hcc => h (by rw [hcc]; exact List.mem_cons_self _ _)
    show splitOnceChar (c :: (a' ++ sep :: b)) sep = some (c :: a', b)
    rw [splitOnceChar]
    simp only [hc, if_false]
    rw [ih b (fun hm => h (List.mem_cons_of_mem _ hm))]

/-- Splitting with `split(sep)` on a separator-free string returns that string
alone. -/
theorem pySplitCharAll_noSep (sep : Char) :
    ∀ l, sep ∉ l → pySplitCharAll l sep = [l] := by
  intro l
  induction l with
  | nil => intro _; rfl
  | cons c rest ih =>
    intro h
    have hc : c ≠ sep := fun hcc => h (by rw [hcc]; exact List.mem_cons_self _ _)
    rw [pySplitCharAll]
    simp only [ih (fun hm => h (List.mem_cons_of_mem _ hm)), hc, if_false]
    rfl

/-- The parser stores the untouched argument line in `raw` whenever it
returns a message at all. -/
theorem parse_raw_eq (l : List Char) (m : IrcMessage)
    (h : IrcMessage.parse l = .ok m) : m.raw = l := by
  unfold IrcMessage.parse at h
  split at h
  · exact absurd h (by simp)
  · split at h
    · exact absurd h (by simp)
    · simp only [Except.ok.injEq] at h
      rw [← h]

/-- Parsing a line that carries one escaped backslash-free tag value
recovers exactly that value: the round-trip property restricted to the
values on which the sequential replacements are actually inverse. -/
theorem parse_escaped_tag (v : List Char) (hv : bsC ∉ v) :
    IrcMessage.parse ('@' :: 'k' :: '=' :: (escapeTagValue v ++ ' ' :: ['C', 'M', 'D'])) =
      .ok ⟨'@' :: 'k' :: '=' :: (escapeTagValue v ++ ' ' :: ['C', 'M', 'D']),
        [(['k'], .str v)], none, ['C', 'M', 'D'], []⟩ := by
  have hr : rstripCRLF ('@' :: 'k' :: '=' :: (escapeTagValue v ++ ' ' :: ['C', 'M', 'D'])) =
      '@' :: 'k' :: '=' :: (escapeTagValue v ++ ' ' :: ['C', 'M', 'D']) := by
    have h0 := rstripCRLF_append 'D' (by decide)
      ('@' :: 'k' :: '=' :: (escapeTagValue v ++ [' ', 'C', 'M']))
    simpa using h0
  have hnospace : ' ' ∉ ('k' :: '=' :: escapeTagValue v) := by
    simp [escape_no_space v]
  have hnosemi : ';' ∉ ('k' :: '=' :: escapeTagValue v) := by
    simp [escape_no_semi v]
  have htag : splitOnceChar ('k' :: '=' :: (escapeTagValue v ++ ' ' :: ['C', 'M', 'D'])) ' ' =
      some ('k' :: '=' :: escapeTagValue v, ['C', 'M', 'D']) := by
    have h0 := splitOnceChar_append ' ' ('k' :: '=' :: escapeTagValue v) ['C', 'M', 'D'] hnospace
    simpa using h0
  have hkey : splitOnceChar ('k' :: '=' :: escapeTagValue v) '=' =
      some (['k'], escapeTagValue v) := by
    have h0 := splitOnceChar_append '=' ['k'] (escapeTagValue v) (by decide)
    simpa using h0
  have htags : tagsStep ('@' :: 'k' :: '=' :: (escapeTagValue v ++ ' ' :: ['C', 'M', 'D'])) =
      .ok ([(['k'], .str v)], ['C', 'M', 'D']) := by
    simp only [tagsStep]
    rw [htag]
    show Except.ok (List.foldl parseOneTag []
      (pySplitCharAll ('k' :: '=' :: escapeTagValue v) ';'), (['C', 'M', 'D'] : List Char)) = _
    rw [pySplitCharAll_noSep ';' _ hnosemi]
    simp only [List.foldl_cons, List.foldl_nil, parseOneTag]
    rw [hkey]
    show Except.ok ([(['k'], TagVal.str (unescapeTagValue (escapeTagValue v)))],
      (['C', 'M', 'D'] : List Char)) = _
    rw [unescape_escape v hv]
  unfold IrcMessage.parse
  rw [hr, htags]
  rfl

/-- Python dict assignment followed by lookup of the same key yields the
just-assigned value, whether or not the key was present. -/
theorem dictGet_dictSet {V : Type} (k : List Char) (v : V) :
    ∀ d, dictGet? (dictSet d k v) k = some v := by
  intro d
  induction d with
  | nil => simp [dictSet, dictGet?]
  | cons kv rest ih =>
    obtain ⟨k', v'⟩ := kv
    by_cases hk : k' = k
    · simp [dictSet, hk, dictGet?]
    · simp [dictSet, hk, dictGet?, ih]

/-- With a nonzero timeout argument, `expect` is the wait loop run
against the absolute deadline `now + T` with fuel strictly above its
iteration bound. -/
theorem expect_eq_fuel (P : List Char → Bool) (fld : FieldSel) (T : Nat) (s : ClientState)
    (hT : T ≠ 0) :
    expect P fld (some T) s =
      expectFuel (fun x => P (fieldValue fld x)) (s.now + T) (s.stream.length + T + 1) s := by
  simp [expect, resolveTimeout, hT]

/-- Claim C1 (code bug): `IrcMessage.parse` is not total.  On the empty
string it does return the empty-command message, but on a tag-only line
(`"@foo"`, no space after the tag block) and on a sender-only line
(`":srv"`, no space after the prefix) the two-variable unpacking of
`split(" ", 1)` raises `ValueError` instead of producing an
empty-command message. -/
theorem c1_parse_raises_on_tag_only_and_sender_only_lines :
    IrcMessage.parse "".toList = .ok ⟨[], [], none, [], []⟩ ∧
    IrcMessage.parse "@foo".toList = .error .valueError ∧
    IrcMessage.parse ":srv".toList = .error .valueError := by decide

/-- An incoming unit with command `"A"` (used as non-matching noise in
witnesses). -/
def wMsgA : IrcMessage := ⟨['A'], [], none, ['A'], []⟩

/-- An incoming unit with command `"B"` (more noise). -/
def wMsgB : IrcMessage := ⟨['B'], [], none, ['B'], []⟩

/-- An incoming unit with command `"C"` (the unit the witnesses wait
for). -/
def wMsgC : IrcMessage := ⟨['C'], [], none, ['C'], []⟩

/-- A freshly connected client with three pending units `A`, `B`, `C`
arriving at instants 1, 2, 3. -/
def wS : ClientState := ⟨[(1, wMsgA), (2, wMsgB), (3, wMsgC)], false, 0, true, true, [], [], [], 10⟩

/-- Claim C2 (confirmed): when the stream is noise that arrives before
the deadline and never matches, followed by a matching unit arriving in
time, `expect` returns exactly that first matching unit, every earlier
non-matching unit is consumed and gone, and a subsequent `recv_all` can
only return a prefix of the remaining suffix in stream order — nothing
discarded leaks back and nothing is reordered. -/
theorem c2_expect_first_match_discards_and_keeps_order
    (P : List Char → Bool) (fld : FieldSel) (T : Nat) (s : ClientState)
    (pre post : List (Nat × IrcMessage)) (tm : Nat) (m : IrcMessage)
    (hT : 0 < T) (hs : s.hasSock = true)
    (hst : s.stream = pre ++ (tm, m) :: post)
    (hpre : ∀ p ∈ pre, p.1 < s.now + T ∧ P (fieldValue fld p.2) = false)
    (htm : tm ≤ s.now + T) (hm : P (fieldValue fld m) = true) :
    ∃ s', expect P fld (some T) s = (.ok m, s') ∧ s'.stream = post ∧
      ∀ w msgs s'', recv_all w s' = (.ok msgs, s'') → msgs <+: post.map Prod.snd := by
  obtain ⟨s', hres, hstream', _, _, _, _, _, _, _⟩ :=
    expectFuel_first (fun x => P (fieldValue fld x)) (s.now + T) tm m post pre
      (s.stream.length + T + 1) s hs (by omega) hst hpre htm hm (by omega)
  refine ⟨s', ?_, hstream', ?_⟩
  · rw [expect_eq_fuel P fld T s (by omega), hres]
  · intro w msgs s'' h
    have hpf := recvAllFuel_isPrefix (s'.now + w) (s'.stream.length + w + 1) s' msgs s'' h
    rwa [hstream'] at hpf

/-- Witness for C2: on the stream `A, B, C` where only `C` matches,
`expect` returns `C`, the stream is left empty, and any later
`recv_all` result is a prefix of the empty suffix. -/
theorem c2_witness :
    wS.stream = [(1, wMsgA), (2, wMsgB)] ++ (3, wMsgC) :: [] ∧
    (∃ s', expect (fun v => v = ['C']) .command (some 10) wS = (.ok wMsgC, s') ∧
      s'.stream = [] ∧ ∀ w msgs s'', recv_all w s' = (.ok msgs, s'') →
        msgs <+: List.map Prod.snd ([] : List (Nat × IrcMessage))) :=
  ⟨by decide,
    c2_expect_first_match_discards_and_keeps_order (fun v => v = ['C']) .command 10 wS
      [(1, wMsgA), (2, wMsgB)] [] 3 wMsgC (by decide) (by decide) (by decide)
      (by decide) (by decide) (by decide)⟩

/-- Claim C3 (confirmed): with a predicate that matches nothing in the
stream, `expect` computes the single absolute deadline `now + T`,
terminates (it raises `TimeoutError`) and returns control at an instant
no later than that deadline — the deadline is never reset by a loop
iteration. -/
theorem c3_expect_times_out_at_single_deadline
    (P : List Char → Bool) (fld : FieldSel) (T : Nat) (s : ClientState)
    (hs : s.hasSock = true)
    (hp : ∀ p ∈ s.stream, P (fieldValue fld p.2) = false) (hT : 0 < T) :
    (expect P fld (some T) s).1 = .error .timeoutError ∧
    (expect P fld (some T) s).2.now ≤ s.now + T := by
  rw [expect_eq_fuel P fld T s (by omega)]
  exact expectFuel_timeout _ (s.now + T) (s.stream.length + T + 1) s hs (by omega) hp (by omega)

/-- Witness for C3: a never-matching wait on the three-unit stream
raises `TimeoutError` with control back by instant 10. -/
theorem c3_witness :
    wS.hasSock = true ∧
    (expect (fun _ => false) .command (some 10) wS).1 = .error .timeoutError ∧
    (expect (fun _ => false) .command (some 10) wS).2.now ≤ wS.now + 10 :=
  ⟨rfl, (c3_expect_times_out_at_single_deadline (fun _ => false) .command 10 wS rfl
      (by decide) (by decide)).1,
    (c3_expect_times_out_at_single_deadline (fun _ => false) .command 10 wS rfl
      (by decide) (by decide)).2⟩

/-- Counterexample to C4 as stated: for the tag value backslash-s, the
escaping from the spec produces a doubled backslash followed by `s`, and
parsing a line carrying that escaped value yields backslash-space — not
the original value — because the second sequential replacement rewrites
the tail of the escaped backslash. -/
theorem c4_counterexample :
    IrcMessage.parse ('@' :: 'k' :: '=' :: (escapeTagValue [bsC, 's'] ++ ' ' :: ['C', 'M', 'D'])) =
      .ok ⟨'@' :: 'k' :: '=' :: (escapeTagValue [bsC, 's'] ++ ' ' :: ['C', 'M', 'D']),
        [(['k'], .str [bsC, ' '])], none, ['C', 'M', 'D'], []⟩ ∧
    ([bsC, ' '] : List Char) ≠ [bsC, 's'] := by decide

/-- Claim C4 (corrected): unescaping inverts the escaping only on
values free of the backslash; for every backslash-free tag value,
escaping it and parsing a line carrying it recovers the value
exactly. -/
theorem c4_roundtrip_on_backslash_free_values (v : List Char) (hv : bsC ∉ v) :
    IrcMessage.parse ('@' :: 'k' :: '=' :: (escapeTagValue v ++ ' ' :: ['C', 'M', 'D'])) =
      .ok ⟨'@' :: 'k' :: '=' :: (escapeTagValue v ++ ' ' :: ['C', 'M', 'D']),
        [(['k'], .str v)], none, ['C', 'M', 'D'], []⟩ :=
  parse_escaped_tag v hv

/-- Witness for C4: the value `a;` space `b` (with a semicolon and a
space, both in the covered escape set) survives the escape/parse
round-trip. -/
theorem c4_witness :
    bsC ∉ ['a', ';', ' ', 'b'] ∧
    IrcMessage.parse ('@' :: 'k' :: '=' ::
        (escapeTagValue ['a', ';', ' ', 'b'] ++ ' ' :: ['C', 'M', 'D'])) =
      .ok ⟨'@' :: 'k' :: '=' :: (escapeTagValue ['a', ';', ' ', 'b'] ++ ' ' :: ['C', 'M', 'D']),
        [(['k'], .str ['a', ';', ' ', 'b'])], none, ['C', 'M', 'D'], []⟩ :=
  ⟨by decide, c4_roundtrip_on_backslash_free_values ['a', ';', ' ', 'b'] (by decide)⟩

/-- The message parsed from `"PING :x\r\n"` (used by the C5
theorems). -/
def wPing : IrcMessage := ⟨"PING :x\r\n".toList, [], none, "PING".toList, ["x".toList]⟩

/-- Counterexample to C5 as stated: `raw` is bound before the local
line is stripped, so for the wire line `"PING :x\r\n"` the stored `raw`
still carries the terminator and differs from the stripped line. -/
theorem c5_counterexample :
    IrcMessage.parse "PING :x\r\n".toList = .ok wPing ∧
    wPing.raw ≠ "PING :x".toList := by decide

/-- Claim C5 (corrected): `raw` equals the original wire line verbatim
including any trailing terminator (the terminator is stripped only from
the working copy used for command and parameter extraction). -/
theorem c5_raw_is_verbatim_line (l : List Char) (m : IrcMessage)
    (h : IrcMessage.parse l = .ok m) : m.raw = l :=
  parse_raw_eq l m h

/-- Witness for C5: the parse of `"PING :x\r\n"` keeps that very line in
`raw`. -/
theorem c5_witness :
    IrcMessage.parse "PING :x\r\n".toList = .ok wPing ∧
    wPing.raw = "PING :x\r\n".toList :=
  ⟨by decide, c5_raw_is_verbatim_line "PING :x\r\n".toList wPing (by decide)⟩

/-- First listing reply, carrying the multi-line continuation marker
`*` in its third parameter: `CAP * LS * :cap-a`. -/
def wLs1 : IrcMessage :=
  ⟨"CAP * LS * :cap-a".toList, [], some "srv".toList, "CAP".toList,
    ["*".toList, "LS".toList, "*".toList, "cap-a".toList]⟩

/-- Final listing reply: `CAP * LS :cap-b`. -/
def wLs2 : IrcMessage :=
  ⟨"CAP * LS :cap-b".toList, [], some "srv".toList, "CAP".toList,
    ["*".toList, "LS".toList, "cap-b".toList]⟩

/-- A connected client about to receive the two-line listing reply. -/
def wLsS : ClientState := ⟨[(1, wLs1), (2, wLs2)], false, 0, true, true, [], [], [], 10⟩

/-- Claim C6 (code bug): on a two-line `CAP LS` reply whose first line
carries the continuation marker `*`, `cap_ls` returns after the first
line with only the capabilities of that line, leaving the second listing
line unconsumed — the break condition tests `params[1]`, which the
enclosing guard has just forced to `"LS"`, instead of the marker in
`params[2]`, so the loop never continues. -/
theorem c6_cap_ls_stops_at_first_listing_line :
    (cap_ls wLsS).1 = .ok ["cap-a".toList] ∧
    (cap_ls wLsS).2.stream = [(2, wLs2)] ∧
    (cap_ls wLsS).2.capsAvailable = ["cap-a".toList] := by decide

/-- A connected client whose stream is silent (no reply ever). -/
def wQuietS : ClientState := ⟨[], false, 0, true, true, [], [], [], 10⟩

/-- Counterexample to C7 as stated: on timeout `cap_req` does not
return failure — the `TimeoutError` raised by the inner `expect`
propagates out of the call. -/
theorem c7_counterexample :
    (cap_req ["sasl".toList] wQuietS).1 = .error .timeoutError := by decide

/-- Claim C7 (corrected): `cap_req` returns success exactly when the
first `CAP`-matching reply is an ACK, in which case every requested
capability is recorded in `caps_enabled`; any other reply (NAK or
otherwise) returns failure without raising; but on timeout the
expectation-timeout error is raised out of the call instead of a
failure return. -/
theorem c7_cap_req_ack_nak_and_timeout
    (caps : List (List Char)) (s : ClientState) (hs : s.hasSock = true) :
    (∀ pre tm m post, s.stream = pre ++ (tm, m) :: post →
      (∀ p ∈ pre, p.1 < s.now + 5 ∧ capPat p.2.command = false) →
      tm ≤ s.now + 5 → capPat m.command = true →
      ((2 ≤ m.params.length ∧ m.params.getD 1 [] = "ACK".toList →
        ∃ s', cap_req caps s = (.ok true, s') ∧
          s'.capsEnabled = caps.foldl setAdd s.capsEnabled) ∧
       (¬ (2 ≤ m.params.length ∧ m.params.getD 1 [] = "ACK".toList) →
        ∃ s', cap_req caps s = (.ok false, s') ∧ s'.capsEnabled = s.capsEnabled))) ∧
    ((∀ p ∈ s.stream, capPat p.2.command = false) →
      (cap_req caps s).1 = .error .timeoutError) := by
  set s1 : ClientState :=
    { s with sent := s.sent ++ [appendCRLF ("CAP REQ :".toList ++ joinSpace caps)] } with hs1def
  have hsend : send ("CAP REQ :".toList ++ joinSpace caps) s = (.ok (), s1) := by
    simp [send, hs, hs1def]
  have hs1sock : s1.hasSock = true := hs
  have hs1now : s1.now = s.now := rfl
  have hs1stream : s1.stream = s.stream := rfl
  have hs1en : s1.capsEnabled = s.capsEnabled := rfl
  constructor
  · intro pre tm m post hst hpre htm hm
    obtain ⟨s2, hres, hstream2, _, _, _, _, hen2, _, _⟩ :=
      expectFuel_first (fun x => capPat (fieldValue .command x)) (s1.now + 5) tm m post pre
        (s1.stream.length + 5 + 1) s1 hs1sock (by omega)
        (by rw [hs1stream]; exact hst)
        (by rw [hs1now]; exact hpre)
        (by rw [hs1now]; exact htm) hm (by omega)
    have hexp : expect capPat .command (some 5) s1 = (.ok m, s2) := by
      rw [expect_eq_fuel capPat .command 5 s1 (by omega)]
      exact hres
    have hcap : cap_req caps s =
        (if 2 ≤ m.params.length ∧ m.params.getD 1 [] = "ACK".toList then
          (.ok true, { s2 with capsEnabled := caps.foldl setAdd s2.capsEnabled })
        else (.ok false, s2)) := by
      unfold cap_req
      rw [hsend]
      show (match expect capPat .command (some 5) s1 with
        | (Except.error e1, t1) => (Except.error e1, t1)
        | (Except.ok m1, t1) =>
          if 2 ≤ m1.params.length ∧ m1.params.getD 1 [] = "ACK".toList then
            (Except.ok true, { t1 with capsEnabled := caps.foldl setAdd t1.capsEnabled })
          else (Except.ok false, t1)) = _
      rw [hexp]
    refine ⟨fun hack => ?_, fun hnack => ?_⟩
    · refine ⟨{ s2 with capsEnabled := caps.foldl setAdd s2.capsEnabled }, ?_, ?_⟩
      · rw [hcap, if_pos hack]
      · show caps.foldl setAdd s2.capsEnabled = caps.foldl setAdd s.capsEnabled
        rw [hen2, hs1en]
    · refine ⟨s2, ?_, ?_⟩
      · rw [hcap, if_neg hnack]
      · rw [hen2, hs1en]
  · intro hp
    have htime := expectFuel_timeout (fun x => capPat (fieldValue .command x)) (s1.now + 5)
      (s1.stream.length + 5 + 1) s1 hs1sock (by omega)
      (by rw [hs1stream]; exact hp) (by omega)
    rcases hexp2 : expectFuel (fun x => capPat (fieldValue .command x)) (s1.now + 5)
      (s1.stream.length + 5 + 1) s1 with ⟨r, s2⟩
    rw [hexp2] at htime
    have hr : r = .error .timeoutError := htime.1
    have hexp : expect capPat .command (some 5) s1 = (.error .timeoutError, s2) := by
      rw [expect_eq_fuel capPat .command 5 s1 (by omega), hexp2, hr]
    have hcap : cap_req caps s = (.error .timeoutError, s2) := by
      unfold cap_req
      rw [hsend]
      show (match expect capPat .command (some 5) s1 with
        | (Except.error e1, t1) => (Except.error e1, t1)
        | (Except.ok m1, t1) =>
          if 2 ≤ m1.params.length ∧ m1.params.getD 1 [] = "ACK".toList then
            (Except.ok true, { t1 with capsEnabled := caps.foldl setAdd t1.capsEnabled })
          else (Except.ok false, t1)) = _
      rw [hexp]
    rw [hcap]

/-- The ACK reply `CAP * ACK :sasl`. -/
def wAck : IrcMessage :=
  ⟨"CAP * ACK :sasl".toList, [], some "srv".toList, "CAP".toList,
    ["*".toList, "ACK".toList, "sasl".toList]⟩

/-- A connected client about to receive the ACK reply. -/
def wAckS : ClientState := ⟨[(1, wAck)], false, 0, true, true, [], [], [], 10⟩

/-- Witness for C7: requesting `sasl` against a server that ACKs
returns success and enables `sasl`. -/
theorem c7_witness :
    wAckS.hasSock = true ∧
    (∃ s', cap_req ["sasl".toList] wAckS = (.ok true, s') ∧
      s'.capsEnabled = ["sasl".toList].foldl setAdd wAckS.capsEnabled) :=
  ⟨rfl,
    ((c7_cap_req_ack_nak_and_timeout ["sasl".toList] wAckS rfl).1 [] 1 wAck []
      (by decide) (by decide) (by decide) (by decide)).1 (by decide)⟩

/-- Counterexample to C8 as stated: adding a client under an
already-present name does not fail — the second `add_client` silently
overwrites, so the stored client is the second one, not the first. -/
theorem c8_counterexample :
    dictGet? (add_client (add_client [] "alice".toList 1) "alice".toList 2) "alice".toList =
      some 2 ∧ (some 2 ≠ some (1 : Nat)) := by decide

/-- Claim C8 (corrected): `add_client` stores the new client under the
given name unconditionally; after any call the stored client for that
name is the one from the most recent call, any previous entry being
silently overwritten. -/
theorem c8_add_client_overwrites (clients : List (List Char × Nat)) (name : List Char)
    (client : Nat) : dictGet? (add_client clients name client) name = some client :=
  dictGet_dictSet name client clients

/-- Claim C9 (confirmed): on a connected client `recv` never raises,
returns `none` exactly on timeout expiry (with `connected` left true)
and on stream EOF (setting `connected := false`), and the `connected`
flag distinguishes the two cases after any `none` result. -/
theorem c9_recv_none_exactly_timeout_or_eof (t? : Option Nat) (s : ClientState)
    (hs : s.hasSock = true) (hc : s.connected = true) :
    (∀ e, (recv t? s).1 ≠ .error e) ∧
    (s.stream = [] → s.atEof = true →
      (recv t? s).1 = .ok none ∧ (recv t? s).2.connected = false) ∧
    (s.stream = [] → s.atEof = false →
      (recv t? s).1 = .ok none ∧ (recv t? s).2.connected = true) ∧
    (∀ ta m rest, s.stream = (ta, m) :: rest → s.now + resolveTimeout t? s < ta →
      (recv t? s).1 = .ok none ∧ (recv t? s).2.connected = true) ∧
    (∀ s', recv t? s = (.ok none, s') →
      (s'.connected = false ↔ (s.stream = [] ∧ s.atEof = true))) := by
  have hrecv : recv t? s = recvCore (resolveTimeout t? s) s := by simp [recv, hs]
  refine ⟨?_, ?_, ?_, ?_, ?_⟩
  · intro e
    rw [hrecv]
    rcases hst : s.stream with _ | ⟨⟨ta, m⟩, rest⟩
    · rcases heof : s.atEof with _ | _
      · rw [recvCore_quiet _ _ hs hst heof]; simp
      · rw [recvCore_eof _ _ hs hst heof]; simp
    · by_cases hta : ta ≤ s.now + resolveTimeout t? s
      · obtain ⟨sent', hrec⟩ := recvCore_deliver _ s ta m rest hs hst hta
        rw [hrec]; simp
      · rw [recvCore_late _ _ _ _ _ hs hst hta]; simp
  · intro hst heof
    rw [hrecv, recvCore_eof _ _ hs hst heof]
    exact ⟨rfl, rfl⟩
  · intro hst heof
    rw [hrecv, recvCore_quiet _ _ hs hst heof]
    exact ⟨rfl, hc⟩
  · intro ta m rest hst hta
    rw [hrecv, recvCore_late _ _ _ _ _ hs hst (by omega)]
    exact ⟨rfl, hc⟩
  · intro s' h
    rw [hrecv] at h
    rcases hst : s.stream with _ | ⟨⟨ta, m⟩, rest⟩
    · rcases heof : s.atEof with _ | _
      · rw [recvCore_quiet _ _ hs hst heof] at h
        simp at h
        subst h
        simp [hst, heof, hc]
      · rw [recvCore_eof _ _ hs hst heof] at h
        simp at h
        subst h
        simp [hst, heof]
    · by_cases hta : ta ≤ s.now + resolveTimeout t? s
      · obtain ⟨sent', hrec⟩ := recvCore_deliver _ s ta m rest hs hst hta
        rw [hrec] at h
        simp at h
      · rw [recvCore_late _ _ _ _ _ hs hst hta] at h
        simp at h
        subst h
        simp [hst, hc]

/-- A connected client whose stream is at EOF. -/
def wEofS : ClientState := ⟨[], true, 0, true, true, [], [], [], 10⟩

/-- Witness for C9: at EOF, `recv` returns `none` and clears
`connected`. -/
theorem c9_witness :
    wEofS.hasSock = true ∧ wEofS.connected = true ∧
    ((recv (some 5) wEofS).1 = .ok none ∧ (recv (some 5) wEofS).2.connected = false) :=
  ⟨rfl, rfl,
    (c9_recv_none_exactly_timeout_or_eof (some 5) wEofS rfl rfl).2.1 rfl rfl⟩

/-- Claim C10 (confirmed): on a client never connected (`_reader` and
`_writer` unset), both `recv` and `send` raise
`ConnectionError("Not connected")` and leave the client state
unchanged. -/
theorem c10_unconnected_recv_and_send_raise (t? : Option Nat) (line : List Char)
    (s : ClientState) (hs : s.hasSock = false) :
    recv t? s = (.error (.connectionError "Not connected".toList), s) ∧
    send line s = (.error (.connectionError "Not connected".toList), s) :=
  ⟨by simp [recv, hs], by simp [send, hs]⟩

/-- A freshly constructed, never-connected client. -/
def wNewS : ClientState := ⟨[], false, 0, false, false, [], [], [], 10⟩

/-- Witness for C10: both operations on the never-connected client
raise and preserve the state. -/
theorem c10_witness :
    wNewS.hasSock = false ∧
    recv (some 5) wNewS = (.error (.connectionError "Not connected".toList), wNewS) ∧
    send "NICK a".toList wNewS = (.error (.connectionError "Not connected".toList), wNewS) :=
  ⟨rfl, (c10_unconnected_recv_and_send_raise (some 5) "NICK a".toList wNewS rfl).1,
    (c10_unconnected_recv_and_send_raise (some 5) "NICK a".toList wNewS rfl).2⟩

example : IrcMessage.parse "PING :x\r\n".toList =
    .ok ⟨"PING :x\r\n".toList, [], none, "PING".toList, ["x".toList]⟩ := by decide
example : IrcMessage.parse ":nick!u@h privmsg #a :hello there".toList =
    .ok ⟨":nick!u@h privmsg #a :hello there".toList, [], some "nick!u@h".toList,
      "PRIVMSG".toList, ["#a".toList, "hello there".toList]⟩ := by decide
example : IrcMessage.parse "@a=x\\sy;b :s CMD p".toList =
    .ok ⟨"@a=x\\sy;b :s CMD p".toList, [("a".toList, .str "x y".toList), ("b".toList, .flag)],
      some "s".toList, "CMD".toList, ["p".toList]⟩ := by decide

end Irc
